import Mathlib

/-!
Verification of the dead-property store in wsgidav/property_manager.py.

The module implements two property managers sharing one contract:

* class PropertyManager — in-memory, backed by a Python dict mapping a
  resource url to a mutable dict object of propname-to-value entries;
* class ShelvePropertyManager — durable, backed by a shelve file.

Embedding choices, kept faithful to the Python source:

* Python dicts are embedded as association lists with unique keys.
  Assignment d[k] = v replaces the entry in place or appends a new one;
  del d[k] removes the entry; membership and get follow the list.
* The in-memory variant hands out references to mutable nested dict
  objects, so object identity matters there (copyProperties uses .copy()
  precisely to break sharing).  We model it with an explicit heap: the
  field heap maps an object id, a Nat, to the dict contents, and _dict
  maps a url to an object id.  Fresh objects take the id nextRef.
* The shelve variant unpickles a fresh value on every read and only
  persists on re-assignment, so it is value-semantic: _dict holds the
  url-to-PropSet mapping directly, and _sync flushes it to diskFile.
* A Python call either returns a value or raises, in both cases leaving
  the object in a definite state; PyResult carries the post-state in
  both cases.  assert failures raise assertionError; using the in
  operator on None raises typeError.
* Logging, _dump and the diagnostic _check never change state; _check is
  embedded separately (its try/except structure is claim C7).
* The reader/writer lock is acquired and released around each operation;
  single-threaded semantics of each operation is what we verify, so the
  lock calls themselves are not modelled.
-/

inductive PyErr : Type
  | assertionError
  | typeError
deriving DecidableEq, Repr

/-- Outcome of a Python call on a stateful object: a normal return with
value v, or a raised exception; either way the object has post-state s. -/
inductive PyResult (σ : Type) (α : Type) : Type
  | ok (s : σ) (v : α)
  | exc (s : σ) (e : PyErr)
deriving DecidableEq, Repr

/-- Post-state of a call, whether it returned or raised. -/
def stOf {σ α : Type} : PyResult σ α → σ
  | .ok s _ => s
  | .exc s _ => s

/-- Python str.startswith with a one-character argument: the first
character of the string equals that character. -/
def startswithSlash (s : String) : Bool := s.data.head? = some '/'

/-- Python dict lookup d.get(k) / d[k] on a string-keyed dict embedded as
an association list. -/
def alGet {β : Type} (l : List (String × β)) (k : String) : Option β :=
  match l with
  | [] => none
  | (k1, v1) :: t => if k1 = k then some v1 else alGet t k

/-- Python dict assignment d[k] = v: replace the entry in place if the key
is present, else append it. -/
def alSet {β : Type} (l : List (String × β)) (k : String) (v : β) : List (String × β) :=
  match l with
  | [] => [(k, v)]
  | (k1, v1) :: t => if k1 = k then (k, v) :: t else (k1, v1) :: alSet t k v

/-- Python del d[k]: drop the entry with key k (keys are unique). -/
def alDel {β : Type} (l : List (String × β)) (k : String) : List (String × β) :=
  match l with
  | [] => []
  | (k1, v1) :: t => if k1 = k then t else (k1, v1) :: alDel t k

/-- Python d.keys() as a list. -/
def alKeys {β : Type} (l : List (String × β)) : List String := l.map Prod.fst

/-- Natural-number-keyed variant of alGet, for the heap of dict objects. -/
def refGet {β : Type} (l : List (Nat × β)) (k : Nat) : Option β :=
  match l with
  | [] => none
  | (k1, v1) :: t => if k1 = k then some v1 else refGet t k

/-- Natural-number-keyed variant of alSet, for the heap of dict objects. -/
def refSet {β : Type} (l : List (Nat × β)) (k : Nat) (v : β) : List (Nat × β) :=
  match l with
  | [] => [(k, v)]
  | (k1, v1) :: t => if k1 = k then (k, v) :: t else (k1, v1) :: refSet t k v

/-- A property set: one Python dict from property name to property value
(class PropertyManager stores one such dict object per resource url). -/
abbrev PropSet := List (String × String)

/-- Heap of live Python dict objects of the in-memory manager, keyed by
object identity. -/
abbrev Heap := List (Nat × PropSet)

/-- Contents of the dict object with id r; a dangling id never occurs for
ids reachable from _dict, the default is a modelling artifact. -/
def heapGet (h : Heap) (r : Nat) : PropSet := (refGet h r).getD []

/-- State of an in-memory PropertyManager: self._dict is None or a dict
from url to the id of a nested dict object living in heap; self._loaded
is the lazy-open flag.  nextRef is the id the next fresh dict object
gets (ids of freed objects are not reused). -/
structure MemPM where
  heap : Heap
  _dict : Option (List (String × Nat))
  nextRef : Nat
  _loaded : Bool
deriving DecidableEq, Repr

namespace PropertyManager

/-- PropertyManager.__init__: self._dict = None; self._loaded = False. -/
def init : MemPM := { heap := [], _dict := none, nextRef := 0, _loaded := false }

/-- PropertyManager._lazyOpen: under the write lock, unconditionally
assign a fresh empty dict to self._dict and set self._loaded = True.
There is no second check of the loaded flag in this base-class method. -/
def _lazyOpen (s : MemPM) : MemPM :=
  { s with _dict := some [], _loaded := true }

/-- PropertyManager._sync: pass. -/
def _sync (s : MemPM) : MemPM := s

/-- PropertyManager._close: under the write lock, self._dict = None and
self._loaded = False. -/
def _close (s : MemPM) : MemPM :=
  { s with _dict := none, _loaded := false }

/-- Body of the try block of PropertyManager._check: return True when not
loaded; otherwise iterate self._dict.items() formatting each entry.
Iterating None raises typeError; iterating a real dict and formatting
its entries with the percent operator cannot raise. -/
def _checkBody (s : MemPM) : PyResult MemPM Bool :=
  if s._loaded = false then .ok s true
  else
    match s._dict with
    | none => .exc s .typeError
    | some _ => .ok s true

/-- PropertyManager._check: the try block above wrapped in
except Exception, which logs and returns False. -/
def _check (s : MemPM) : MemPM × Bool :=
  match _checkBody s with
  | .ok s1 b => (s1, b)
  | .exc s1 _ => (s1, false)

/-- PropertyManager.getProperties: read lock; lazy-open if needed; collect
the keys of the nested dict for normurl, or an empty list. -/
def getProperties (s : MemPM) (normurl : String) : PyResult MemPM (List String) :=
  let t := if s._loaded then s else _lazyOpen s
  match t._dict with
  | none => .exc t .typeError
  | some d =>
    match alGet d normurl with
    | some r => .ok t (alKeys (heapGet t.heap r))
    | none => .ok t []

/-- PropertyManager.getProperty: read lock; lazy-open if needed; None when
the url is absent, else resourceprops.get(propname). -/
def getProperty (s : MemPM) (normurl propname : String) : PyResult MemPM (Option String) :=
  let t := if s._loaded then s else _lazyOpen s
  match t._dict with
  | none => .exc t .typeError
  | some d =>
    match alGet d normurl with
    | none => .ok t none
    | some r => .ok t (alGet (heapGet t.heap r) propname)

/-- PropertyManager.writeProperty: three asserts, then the dryRun early
return, then under the write lock: lazy-open if needed, fetch or create
the nested dict, set the entry in place, re-assign the dict under the
url, _sync and _check.  propertyvalue is an optional string, none
standing for Python None. -/
def writeProperty (s : MemPM) (normurl propname : String) (propertyvalue : Option String)
    (dryRun : Bool) : PyResult MemPM Unit :=
  if normurl = "" then .exc s .assertionError
  else if startswithSlash normurl = false then .exc s .assertionError
  else if propname = "" then .exc s .assertionError
  else
    match propertyvalue with
    | none => .exc s .assertionError
    | some v =>
      if dryRun then .ok s ()
      else
        let t := if s._loaded then s else _lazyOpen s
        match t._dict with
        | none => .exc t .typeError
        | some d =>
          match alGet d normurl with
          | some r =>
            .ok { t with heap := refSet t.heap r (alSet (heapGet t.heap r) propname v),
                         _dict := some (alSet d normurl r) } ()
          | none =>
            .ok { t with heap := refSet t.heap t.nextRef [(propname, v)],
                         _dict := some (alSet d normurl t.nextRef),
                         nextRef := t.nextRef + 1 } ()

/-- PropertyManager.removeProperty: dryRun early return; write lock;
lazy-open if needed; when both the url and the property exist, delete
the entry in place, re-assign the nested dict and _sync; otherwise do
nothing.  Absence is not an error. -/
def removeProperty (s : MemPM) (normurl propname : String) (dryRun : Bool) :
    PyResult MemPM Unit :=
  if dryRun then .ok s ()
  else
    let t := if s._loaded then s else _lazyOpen s
    match t._dict with
    | none => .exc t .typeError
    | some d =>
      match alGet d normurl with
      | none => .ok t ()
      | some r =>
        if (alGet (heapGet t.heap r) propname).isSome then
          .ok { t with heap := refSet t.heap r (alDel (heapGet t.heap r) propname),
                       _dict := some (alSet d normurl r) } ()
        else .ok t ()

/-- PropertyManager.removeProperties: write lock; lazy-open if needed;
delete the whole entry for normurl when present, then _sync. -/
def removeProperties (s : MemPM) (normurl : String) : PyResult MemPM Unit :=
  let t := if s._loaded then s else _lazyOpen s
  match t._dict with
  | none => .exc t .typeError
  | some d =>
    match alGet d normurl with
    | some _ => .ok { t with _dict := some (alDel d normurl) } ()
    | none => .ok t ()

/-- PropertyManager.copyProperties: write lock; diagnostic _check calls
around the body do not change state; lazy-open if needed; when srcurl is
present, store a .copy() of its nested dict, a fresh object with equal
contents, under desturl, then _sync. -/
def copyProperties (s : MemPM) (srcurl desturl : String) : PyResult MemPM Unit :=
  let t := if s._loaded then s else _lazyOpen s
  match t._dict with
  | none => .exc t .typeError
  | some d =>
    match alGet d srcurl with
    | some r =>
      .ok { t with heap := refSet t.heap t.nextRef (heapGet t.heap r),
                   _dict := some (alSet d desturl t.nextRef),
                   nextRef := t.nextRef + 1 } ()
    | none => .ok t ()

/-- Observable snapshot of the store: the mapping from resource url to the
contents of its property set, read through _dict and the heap. -/
def propsOf (s : MemPM) (url : String) : Option PropSet :=
  s._dict.bind (fun d => (alGet d url).map (fun r => heapGet s.heap r))

end PropertyManager

/-- State of a ShelvePropertyManager: the shelf hands out a freshly
unpickled value on every read and persists a value only on assignment
to a top-level key, so _dict is value-semantic here, an optional map
from url to PropSet; diskFile is the durable content of the backing
file, updated by sync and close. -/
structure ShelvePM where
  _storagePath : String
  diskFile : List (String × PropSet)
  _dict : Option (List (String × PropSet))
  _loaded : Bool
deriving DecidableEq, Repr

namespace ShelvePropertyManager

/-- ShelvePropertyManager.__init__: record the storage path, then the
base __init__ sets self._dict = None and self._loaded = False.  The
os.path.abspath resolution is not modelled (no filesystem); diskFile is
the pre-existing content of the backing file. -/
def init (storagePath : String) (diskFile : List (String × PropSet)) : ShelvePM :=
  { _storagePath := storagePath, diskFile := diskFile, _dict := none, _loaded := false }

/-- ShelvePropertyManager._lazyOpen: under the write lock, test the loaded
flag again and return early when already loaded; otherwise open the
shelf, attaching the content of the backing file, and set the flag.
The trailing _check and _dump calls are diagnostics without state
effect. -/
def _lazyOpen (s : ShelvePM) : ShelvePM :=
  if s._loaded then s
  else { s with _dict := some s.diskFile, _loaded := true }

/-- ShelvePropertyManager._sync: under the write lock, when loaded flush
the shelf to the backing file via self._dict.sync(). -/
def _sync (s : ShelvePM) : ShelvePM :=
  if s._loaded then { s with diskFile := s._dict.getD [] } else s

/-- ShelvePropertyManager._close: under the write lock, when loaded close
the shelf, which flushes it, then self._dict = None and
self._loaded = False; when not loaded do nothing. -/
def _close (s : ShelvePM) : ShelvePM :=
  if s._loaded then
    { s with diskFile := s._dict.getD [], _dict := none, _loaded := false }
  else s

/-- Inherited PropertyManager.getProperties running on a shelve-backed
instance: dispatches to the shelve _lazyOpen; reads are value-semantic. -/
def getProperties (s : ShelvePM) (normurl : String) : PyResult ShelvePM (List String) :=
  let t := if s._loaded then s else _lazyOpen s
  match t._dict with
  | none => .exc t .typeError
  | some d =>
    match alGet d normurl with
    | some ps => .ok t (alKeys ps)
    | none => .ok t []

/-- Inherited PropertyManager.getProperty on a shelve-backed instance. -/
def getProperty (s : ShelvePM) (normurl propname : String) : PyResult ShelvePM (Option String) :=
  let t := if s._loaded then s else _lazyOpen s
  match t._dict with
  | none => .exc t .typeError
  | some d =>
    match alGet d normurl with
    | none => .ok t none
    | some ps => .ok t (alGet ps propname)

/-- Inherited PropertyManager.writeProperty on a shelve-backed instance:
fetch a fresh copy of the nested dict (or a new empty one), set the
entry, re-assign under the url so the shelf records the change, then
the shelve _sync flushes to the backing file. -/
def writeProperty (s : ShelvePM) (normurl propname : String) (propertyvalue : Option String)
    (dryRun : Bool) : PyResult ShelvePM Unit :=
  if normurl = "" then .exc s .assertionError
  else if startswithSlash normurl = false then .exc s .assertionError
  else if propname = "" then .exc s .assertionError
  else
    match propertyvalue with
    | none => .exc s .assertionError
    | some v =>
      if dryRun then .ok s ()
      else
        let t := if s._loaded then s else _lazyOpen s
        match t._dict with
        | none => .exc t .typeError
        | some d =>
          match alGet d normurl with
          | some ps => .ok (_sync { t with _dict := some (alSet d normurl (alSet ps propname v)) }) ()
          | none => .ok (_sync { t with _dict := some (alSet d normurl [(propname, v)]) }) ()

/-- Inherited PropertyManager.removeProperty on a shelve-backed
instance. -/
def removeProperty (s : ShelvePM) (normurl propname : String) (dryRun : Bool) :
    PyResult ShelvePM Unit :=
  if dryRun then .ok s ()
  else
    let t := if s._loaded then s else _lazyOpen s
    match t._dict with
    | none => .exc t .typeError
    | some d =>
      match alGet d normurl with
      | none => .ok t ()
      | some ps =>
        if (alGet ps propname).isSome then
          .ok (_sync { t with _dict := some (alSet d normurl (alDel ps propname)) }) ()
        else .ok t ()

/-- Inherited PropertyManager.removeProperties on a shelve-backed
instance. -/
def removeProperties (s : ShelvePM) (normurl : String) : PyResult ShelvePM Unit :=
  let t := if s._loaded then s else _lazyOpen s
  match t._dict with
  | none => .exc t .typeError
  | some d =>
    match alGet d normurl with
    | some _ => .ok (_sync { t with _dict := some (alDel d normurl) }) ()
    | none => .ok t ()

/-- Inherited PropertyManager.copyProperties on a shelve-backed instance:
the .copy() of an unpickled value is just that value. -/
def copyProperties (s : ShelvePM) (srcurl desturl : String) : PyResult ShelvePM Unit :=
  let t := if s._loaded then s else _lazyOpen s
  match t._dict with
  | none => .exc t .typeError
  | some d =>
    match alGet d srcurl with
    | some ps => .ok (_sync { t with _dict := some (alSet d desturl ps) }) ()
    | none => .ok t ()

/-- Observable snapshot of the shelve store: url to PropSet, through the
open shelf. -/
def propsOf (s : ShelvePM) (url : String) : Option PropSet :=
  s._dict.bind (fun d => alGet d url)

end ShelvePropertyManager

/-- Invariant of the in-memory manager relating the loaded flag and the
mapping: the flag is true exactly when self._dict is not None. -/
def loadedInvMem (s : MemPM) : Prop := s._loaded = s._dict.isSome

/-- Invariant of the shelve manager relating the loaded flag and the open
shelf: the flag is true exactly when self._dict is not None. -/
def loadedInvShelve (s : ShelvePM) : Prop := s._loaded = s._dict.isSome

theorem alGet_alSet_self {β : Type} (l : List (String × β)) (k : String) (v : β) :
    alGet (alSet l k v) k = some v := by
  induction l with
  | nil => simp [alGet, alSet]
  | cons h t ih =>
    obtain ⟨k1, v1⟩ := h
    by_cases hk : k1 = k
    · simp [alGet, alSet, hk]
    · simp [alGet, alSet, hk, ih]

theorem alGet_alSet_ne {β : Type} (l : List (String × β)) (k k1 : String) (v : β)
    (h : k1 ≠ k) : alGet (alSet l k v) k1 = alGet l k1 := by
  induction l with
  | nil =>
    simp only [alSet, alGet]
    rw [if_neg (fun hh => h (Eq.symm hh))]
  | cons hd t ih =>
    obtain ⟨k2, v2⟩ := hd
    by_cases hk : k2 = k
    · subst hk
      simp only [alSet, if_pos rfl, alGet]
      rw [if_neg (fun hh => h hh.symm), if_neg (fun hh => h hh.symm)]
    · simp only [alSet, if_neg hk, alGet]
      by_cases hk1 : k2 = k1
      · simp [hk1]
      · simp [hk1, ih]

theorem mem_alKeys_alSet {β : Type} (l : List (String × β)) (k : String) (v : β) :
    k ∈ alKeys (alSet l k v) := by
  induction l with
  | nil => simp [alSet, alKeys]
  | cons h t ih =>
    obtain ⟨k1, v1⟩ := h
    by_cases hk : k1 = k
    · simp [alSet, hk, alKeys]
    · simp only [alSet, if_neg hk, alKeys, List.map_cons, List.mem_cons]
      exact Or.inr ih

theorem refGet_refSet_self {β : Type} (l : List (Nat × β)) (k : Nat) (v : β) :
    refGet (refSet l k v) k = some v := by
  induction l with
  | nil => simp [refGet, refSet]
  | cons h t ih =>
    obtain ⟨k1, v1⟩ := h
    by_cases hk : k1 = k
    · simp [refGet, refSet, hk]
    · simp [refGet, refSet, hk, ih]

theorem refGet_refSet_ne {β : Type} (l : List (Nat × β)) (k k1 : Nat) (v : β)
    (h : k1 ≠ k) : refGet (refSet l k v) k1 = refGet l k1 := by
  induction l with
  | nil =>
    simp only [refSet, refGet]
    rw [if_neg (fun hh => h (Eq.symm hh))]
  | cons hd t ih =>
    obtain ⟨k2, v2⟩ := hd
    by_cases hk : k2 = k
    · subst hk
      simp only [refSet, if_pos rfl, refGet]
      rw [if_neg (fun hh => h hh.symm), if_neg (fun hh => h hh.symm)]
    · simp only [refSet, if_neg hk, refGet]
      by_cases hk1 : k2 = k1
      · simp [hk1]
      · simp [hk1, ih]

theorem alGet_mem {β : Type} (l : List (String × β)) (k : String) (v : β)
    (h : alGet l k = some v) : (k, v) ∈ l := by
  induction l with
  | nil => simp [alGet] at h
  | cons hd t ih =>
    obtain ⟨k1, v1⟩ := hd
    simp only [alGet] at h
    by_cases hk : k1 = k
    · subst hk
      rw [if_pos rfl] at h
      injection h with h
      subst h
      exact List.mem_cons_self _ _
    · rw [if_neg hk] at h
      exact List.mem_cons_of_mem _ (ih h)

/-- C4: for every resourceID, property name and value, writeProperty and
removeProperty with dryRun set to true leave the whole store state, and
hence the mapping and the loaded flag, unchanged: the post-state equals
the pre-state whether the call returns or raises, and removeProperty
returns normally. -/
theorem c4_dryRun_frame (s : MemPM) (normurl propname : String) (v : Option String) :
    stOf (PropertyManager.writeProperty s normurl propname v true) = s ∧
    PropertyManager.removeProperty s normurl propname true = PyResult.ok s () := by
  constructor
  · unfold PropertyManager.writeProperty
    split
    · rfl
    split
    · rfl
    split
    · rfl
    cases v <;> simp [stOf]
  · rfl

/-- C6: writeProperty raises an assertion fault, with the state as it was
before the call, exactly when the resourceID is empty or does not start
with a slash, the property name is empty, or the value is None; on all
inputs satisfying the preconditions no assertion fault is raised. -/
theorem c6_writeProperty_preconditions (s : MemPM) (normurl propname : String)
    (v : Option String) (dryRun : Bool) :
    ((normurl = "" ∨ startswithSlash normurl = false ∨ propname = "" ∨ v = none) →
      PropertyManager.writeProperty s normurl propname v dryRun =
        PyResult.exc s PyErr.assertionError) ∧
    (¬ (normurl = "" ∨ startswithSlash normurl = false ∨ propname = "" ∨ v = none) →
      ∀ s1, PropertyManager.writeProperty s normurl propname v dryRun ≠
        PyResult.exc s1 PyErr.assertionError) := by
  constructor
  · intro hviol
    unfold PropertyManager.writeProperty
    split
    · rfl
    split
    · rfl
    split
    · rfl
    rename_i h1 h2 h3
    cases v with
    | none => rfl
    | some v0 =>
      rcases hviol with h | h | h | h
      · exact absurd h h1
      · exact absurd h (by simpa using h2)
      · exact absurd h h3
      · exact absurd h (by simp)
  · intro hok s1
    push_neg at hok
    obtain ⟨h1, h2, h3, h4⟩ := hok
    unfold PropertyManager.writeProperty
    rw [if_neg h1, if_neg (by simpa using h2), if_neg h3]
    cases v with
    | none => exact absurd rfl h4
    | some v0 =>
      cases dryRun with
      | true => simp
      | false =>
        cases hdict : (if s._loaded then s else PropertyManager._lazyOpen s)._dict with
        | none => simp [hdict]
        | some d =>
          cases halGet : alGet d normurl with
          | none => simp [hdict, halGet]
          | some r => simp [hdict, halGet]

/-- C10: removeProperty with dryRun set to true returns immediately with
the state unchanged for every resourceID and property name, malformed
ones included, performing no argument validation; writeProperty runs
its precondition checks even when dryRun is true, raising an assertion
fault on malformed input. -/
theorem c10_removeProperty_dryRun_no_validation (s : MemPM) (normurl propname : String) :
    PropertyManager.removeProperty s normurl propname true = PyResult.ok s () ∧
    (∀ v : Option String,
      (normurl = "" ∨ startswithSlash normurl = false ∨ propname = "" ∨ v = none) →
      PropertyManager.writeProperty s normurl propname v true =
        PyResult.exc s PyErr.assertionError) := by
  constructor
  · rfl
  · intro v hviol
    unfold PropertyManager.writeProperty
    split
    · rfl
    split
    · rfl
    split
    · rfl
    rename_i h1 h2 h3
    cases v with
    | none => rfl
    | some v0 =>
      rcases hviol with h | h | h | h
      · exact absurd h h1
      · exact absurd h (by simpa using h2)
      · exact absurd h h3
      · exact absurd h (by simp)

/-- C10 witness: on the empty resourceID, a malformed input, removeProperty
with dryRun true still returns normally with the state unchanged while
writeProperty with dryRun true raises the assertion fault. -/
theorem c10_removeProperty_dryRun_witness :
    PropertyManager.removeProperty PropertyManager.init "" "p" true =
      PyResult.ok PropertyManager.init () ∧
    PropertyManager.writeProperty PropertyManager.init "" "p" (some "v") true =
      PyResult.exc PropertyManager.init PyErr.assertionError :=
  ⟨(c10_removeProperty_dryRun_no_validation PropertyManager.init "" "p").1,
   (c10_removeProperty_dryRun_no_validation PropertyManager.init "" "p").2 (some "v") (Or.inl rfl)⟩

/-- C6 witness: the empty resourceID violates the precondition and yields
the assertion fault with unchanged state, while a well-formed write is
not an assertion fault. -/
theorem c6_writeProperty_preconditions_witness :
    PropertyManager.writeProperty PropertyManager.init "" "p" (some "v") false =
      PyResult.exc PropertyManager.init PyErr.assertionError ∧
    ∀ s1, PropertyManager.writeProperty PropertyManager.init "/r" "p" (some "v") false ≠
      PyResult.exc s1 PyErr.assertionError :=
  ⟨(c6_writeProperty_preconditions PropertyManager.init "" "p" (some "v") false).1 (Or.inl rfl),
   (c6_writeProperty_preconditions PropertyManager.init "/r" "p" (some "v") false).2 (by decide)⟩

/-- C5: removeProperty with dryRun false on a pair whose resource is
absent, or whose resource is present but lacks the property, returns
normally and leaves the observable mapping from resourceIDs to property
sets unchanged, assuming the loaded flag matches the mapping. -/
theorem c5_removeProperty_absent_noop (s : MemPM) (normurl propname : String)
    (hinv : s._loaded = s._dict.isSome)
    (habs : ∀ ps, PropertyManager.propsOf s normurl = some ps → alGet ps propname = none) :
    ∃ s1, PropertyManager.removeProperty s normurl propname false = PyResult.ok s1 () ∧
      ∀ u, PropertyManager.propsOf s1 u = PropertyManager.propsOf s u := by
  cases hl : s._loaded with
  | false =>
    have hdict : s._dict = none := by
      rw [hl] at hinv
      cases hd : s._dict with
      | none => rfl
      | some d => rw [hd] at hinv; simp at hinv
    refine ⟨PropertyManager._lazyOpen s, ?_, ?_⟩
    · unfold PropertyManager.removeProperty
      simp [hl, PropertyManager._lazyOpen, alGet]
    · intro u
      simp [PropertyManager.propsOf, PropertyManager._lazyOpen, hdict, alGet]
  | true =>
    have hsome : s._dict.isSome = true := by rw [← hinv, hl]
    obtain ⟨d, hdict⟩ := Option.isSome_iff_exists.mp hsome
    refine ⟨s, ?_, fun u => rfl⟩
    unfold PropertyManager.removeProperty
    cases halGet : alGet d normurl with
    | none => simp [hl, hdict, halGet]
    | some r =>
      have hps : PropertyManager.propsOf s normurl = some (heapGet s.heap r) := by
        simp [PropertyManager.propsOf, hdict, halGet]
      have := habs _ hps
      simp [hl, hdict, halGet, this]

/-- C5 witness: removing a property absent from an existing resource of a
loaded store returns normally with the mapping unchanged. -/
theorem c5_removeProperty_absent_witness :
    ∃ s1, PropertyManager.removeProperty
        { heap := [(0, [("a", "1")])], _dict := some [("/r", 0)], nextRef := 1, _loaded := true }
        "/r" "q" false = PyResult.ok s1 () ∧
      ∀ u, PropertyManager.propsOf s1 u =
        PropertyManager.propsOf
          { heap := [(0, [("a", "1")])], _dict := some [("/r", 0)], nextRef := 1, _loaded := true }
          u :=
  c5_removeProperty_absent_noop _ "/r" "q" (by decide) (by decide)

/-- C8: close is idempotent on both variants and safe on a never-opened
store; after close the loaded flag is false and the backend mapping is
detached; the shelve part assumes the loaded flag matches the mapping. -/
theorem c8_close_idempotent :
    (∀ s : MemPM,
      PropertyManager._close (PropertyManager._close s) = PropertyManager._close s ∧
      (PropertyManager._close s)._loaded = false ∧
      (PropertyManager._close s)._dict = none) ∧
    PropertyManager._close PropertyManager.init = PropertyManager.init ∧
    (∀ storagePath diskFile,
      ShelvePropertyManager._close (ShelvePropertyManager.init storagePath diskFile) =
        ShelvePropertyManager.init storagePath diskFile) ∧
    (∀ sh : ShelvePM, sh._loaded = sh._dict.isSome →
      ShelvePropertyManager._close (ShelvePropertyManager._close sh) =
        ShelvePropertyManager._close sh ∧
      (ShelvePropertyManager._close sh)._loaded = false ∧
      (ShelvePropertyManager._close sh)._dict = none) := by
  refine ⟨fun s => ⟨rfl, rfl, rfl⟩, rfl, fun p dk => rfl, fun sh hinv => ?_⟩
  cases hl : sh._loaded with
  | false =>
    have hdict : sh._dict = none := by
      rw [hl] at hinv
      cases hd : sh._dict with
      | none => rfl
      | some d => rw [hd] at hinv; simp at hinv
    unfold ShelvePropertyManager._close
    simp [hl, hdict]
  | true =>
    unfold ShelvePropertyManager._close
    simp [hl]

/-- C8 witness: a loaded shelve store closes to a detached, unloaded state
and closing again changes nothing. -/
theorem c8_close_idempotent_witness :
    ShelvePropertyManager._close
        (ShelvePropertyManager._close ⟨"/tmp/p", [], some [("/r", [("a", "1")])], true⟩) =
      ShelvePropertyManager._close ⟨"/tmp/p", [], some [("/r", [("a", "1")])], true⟩ ∧
    (ShelvePropertyManager._close
        (⟨"/tmp/p", [], some [("/r", [("a", "1")])], true⟩ : ShelvePM))._loaded = false ∧
    (ShelvePropertyManager._close
        (⟨"/tmp/p", [], some [("/r", [("a", "1")])], true⟩ : ShelvePM))._dict = none :=
  c8_close_idempotent.2.2.2 ⟨"/tmp/p", [], some [("/r", [("a", "1")])], true⟩ (by decide)

/-- C1 counterexample: the claim fails on the in-memory variant.  On a
loaded in-memory store already holding a property for resource /r, a
redundant call of the base-class lazy-open does not leave the mapping
unchanged: it re-assigns a fresh empty dict, so the property of /r is
gone.  The base-class method performs no second check of the loaded
flag. -/
theorem c1_lazyOpen_counterexample :
    PropertyManager.propsOf
        (PropertyManager._lazyOpen
          { heap := [(0, [("n", "v")])], _dict := some [("/r", 0)], nextRef := 1, _loaded := true })
        "/r" ≠
      PropertyManager.propsOf
        { heap := [(0, [("n", "v")])], _dict := some [("/r", 0)], nextRef := 1, _loaded := true }
        "/r" := by decide

/-- C1 amended: only the durable variant re-checks the loaded flag after
acquiring the write lock, so its lazy-open is idempotent: on a loaded
shelve store it changes nothing.  The in-memory base-class lazy-open
performs no second check and unconditionally re-initializes the mapping
to a fresh empty dict, leaving the loaded flag true; it is therefore not
idempotent on a store that already holds property data. -/
theorem c1_lazyOpen_idempotent_amended :
    (∀ sh : ShelvePM, sh._loaded = true → ShelvePropertyManager._lazyOpen sh = sh) ∧
    (∀ s : MemPM, (PropertyManager._lazyOpen s)._loaded = true ∧
      (PropertyManager._lazyOpen s)._dict = some []) := by
  constructor
  · intro sh hl
    unfold ShelvePropertyManager._lazyOpen
    rw [if_pos hl]
  · intro s
    exact ⟨rfl, rfl⟩

/-- C1 witness: a loaded shelve store holding data is untouched by a
redundant lazy-open. -/
theorem c1_lazyOpen_idempotent_witness :
    ShelvePropertyManager._lazyOpen
        ⟨"/tmp/p", [("/r", [("a", "1")])], some [("/r", [("a", "1")])], true⟩ =
      ⟨"/tmp/p", [("/r", [("a", "1")])], some [("/r", [("a", "1")])], true⟩ :=
  c1_lazyOpen_idempotent_amended.1
    ⟨"/tmp/p", [("/r", [("a", "1")])], some [("/r", [("a", "1")])], true⟩ rfl

/-- C2: after writeProperty on a well-formed resourceID with a non-empty
name and a non-None value, with dryRun false, the call returns normally
and getProperty on that pair returns exactly the written value, while
getProperties on the resource lists the name; the loaded flag is assumed
to match the mapping. -/
theorem c2_write_then_get (s : MemPM) (R p v : String)
    (hR : R ≠ "") (hR2 : startswithSlash R = true) (hp : p ≠ "")
    (hinv : s._loaded = s._dict.isSome) :
    ∃ s1, PropertyManager.writeProperty s R p (some v) false = PyResult.ok s1 () ∧
      PropertyManager.getProperty s1 R p = PyResult.ok s1 (some v) ∧
      ∃ names, PropertyManager.getProperties s1 R = PyResult.ok s1 names ∧ p ∈ names := by
  have hstart : ¬ startswithSlash R = false := by simp [hR2]
  cases hl : s._loaded with
  | true =>
    have hsome : s._dict.isSome = true := by rw [← hinv, hl]
    obtain ⟨d, hdict⟩ := Option.isSome_iff_exists.mp hsome
    cases halGet : alGet d R with
    | some r =>
      refine ⟨{ s with heap := refSet s.heap r (alSet (heapGet s.heap r) p v),
                       _dict := some (alSet d R r) }, ?_, ?_, ?_⟩
      · unfold PropertyManager.writeProperty
        rw [if_neg hR, if_neg hstart, if_neg hp]
        simp [hl, hdict, halGet]
      · unfold PropertyManager.getProperty
        simp [hl, alGet_alSet_self, heapGet, refGet_refSet_self]
      · refine ⟨alKeys (alSet (heapGet s.heap r) p v), ?_, mem_alKeys_alSet _ _ _⟩
        unfold PropertyManager.getProperties
        simp [hl, alGet_alSet_self, heapGet, refGet_refSet_self]
    | none =>
      refine ⟨{ s with heap := refSet s.heap s.nextRef [(p, v)],
                       _dict := some (alSet d R s.nextRef),
                       nextRef := s.nextRef + 1 }, ?_, ?_, ?_⟩
      · unfold PropertyManager.writeProperty
        rw [if_neg hR, if_neg hstart, if_neg hp]
        simp [hl, hdict, halGet]
      · unfold PropertyManager.getProperty
        simp [hl, alGet_alSet_self, heapGet, refGet_refSet_self, alGet]
      · refine ⟨alKeys [(p, v)], ?_, by simp [alKeys]⟩
        unfold PropertyManager.getProperties
        simp [hl, alGet_alSet_self, heapGet, refGet_refSet_self]
  | false =>
    refine ⟨{ heap := refSet s.heap s.nextRef [(p, v)],
              _dict := some (alSet [] R s.nextRef),
              nextRef := s.nextRef + 1, _loaded := true }, ?_, ?_, ?_⟩
    · unfold PropertyManager.writeProperty
      rw [if_neg hR, if_neg hstart, if_neg hp]
      simp [hl, PropertyManager._lazyOpen, alGet]
    · unfold PropertyManager.getProperty
      simp [alGet_alSet_self, heapGet, refGet_refSet_self, alGet]
    · refine ⟨alKeys [(p, v)], ?_, by simp [alKeys]⟩
      unfold PropertyManager.getProperties
      simp [alGet_alSet_self, heapGet, refGet_refSet_self]

/-- C2 witness: writing value 1 for property a of resource /r on a fresh
store makes getProperty return 1 and getProperties list a. -/
theorem c2_write_then_get_witness :
    ∃ s1, PropertyManager.writeProperty PropertyManager.init "/r" "a" (some "1") false =
        PyResult.ok s1 () ∧
      PropertyManager.getProperty s1 "/r" "a" = PyResult.ok s1 (some "1") ∧
      ∃ names, PropertyManager.getProperties s1 "/r" = PyResult.ok s1 names ∧ "a" ∈ names :=
  c2_write_then_get PropertyManager.init "/r" "a" "1" (by decide) (by decide) (by decide) rfl

theorem memInv_dict (s : MemPM) (hinv : loadedInvMem s) (hl : s._loaded = true) :
    ∃ d, s._dict = some d := by
  unfold loadedInvMem at hinv
  rw [hl] at hinv
  exact Option.isSome_iff_exists.mp (Eq.symm hinv)

theorem memInv_getProperties (s : MemPM) (u : String) (hinv : loadedInvMem s) :
    loadedInvMem (stOf (PropertyManager.getProperties s u)) := by
  cases hl : s._loaded with
  | false => simp [PropertyManager.getProperties, hl, PropertyManager._lazyOpen,
                   alGet, stOf, loadedInvMem]
  | true =>
    obtain ⟨d, hd⟩ := memInv_dict s hinv hl
    cases halGet : alGet d u with
    | none => simp [PropertyManager.getProperties, hl, hd, halGet, stOf, loadedInvMem, hinv]
    | some r => simp [PropertyManager.getProperties, hl, hd, halGet, stOf, loadedInvMem, hinv]

theorem memInv_getProperty (s : MemPM) (u p : String) (hinv : loadedInvMem s) :
    loadedInvMem (stOf (PropertyManager.getProperty s u p)) := by
  cases hl : s._loaded with
  | false => simp [PropertyManager.getProperty, hl, PropertyManager._lazyOpen,
                   alGet, stOf, loadedInvMem]
  | true =>
    obtain ⟨d, hd⟩ := memInv_dict s hinv hl
    cases halGet : alGet d u with
    | none => simp [PropertyManager.getProperty, hl, hd, halGet, stOf, loadedInvMem, hinv]
    | some r => simp [PropertyManager.getProperty, hl, hd, halGet, stOf, loadedInvMem, hinv]

theorem memInv_writeProperty (s : MemPM) (u p : String) (v : Option String) (dr : Bool)
    (hinv : loadedInvMem s) :
    loadedInvMem (stOf (PropertyManager.writeProperty s u p v dr)) := by
  unfold PropertyManager.writeProperty
  split
  · exact hinv
  split
  · exact hinv
  split
  · exact hinv
  cases v with
  | none => exact hinv
  | some v0 =>
    cases dr with
    | true => exact hinv
    | false =>
      cases hl : s._loaded with
      | false => simp [hl, PropertyManager._lazyOpen, alGet, stOf, loadedInvMem]
      | true =>
        obtain ⟨d, hd⟩ := memInv_dict s hinv hl
        cases halGet : alGet d u with
        | none => simp [hl, hd, halGet, stOf, loadedInvMem]
        | some r => simp [hl, hd, halGet, stOf, loadedInvMem]

theorem memInv_removeProperty (s : MemPM) (u p : String) (dr : Bool)
    (hinv : loadedInvMem s) :
    loadedInvMem (stOf (PropertyManager.removeProperty s u p dr)) := by
  unfold PropertyManager.removeProperty
  cases dr with
  | true => exact hinv
  | false =>
    cases hl : s._loaded with
    | false => simp [hl, PropertyManager._lazyOpen, alGet, stOf, loadedInvMem]
    | true =>
      obtain ⟨d, hd⟩ := memInv_dict s hinv hl
      cases halGet : alGet d u with
      | none => simp [hl, hd, halGet, stOf, loadedInvMem, hinv]
      | some r =>
        by_cases hmem : (alGet (heapGet s.heap r) p).isSome = true
        · simp [hl, hd, halGet, hmem, stOf, loadedInvMem]
        · simp [hl, hd, halGet, hmem, stOf, loadedInvMem, hinv]

theorem memInv_removeProperties (s : MemPM) (u : String) (hinv : loadedInvMem s) :
    loadedInvMem (stOf (PropertyManager.removeProperties s u)) := by
  cases hl : s._loaded with
  | false => simp [PropertyManager.removeProperties, hl, PropertyManager._lazyOpen,
                   alGet, stOf, loadedInvMem]
  | true =>
    obtain ⟨d, hd⟩ := memInv_dict s hinv hl
    cases halGet : alGet d u with
    | none => simp [PropertyManager.removeProperties, hl, hd, halGet, stOf, loadedInvMem, hinv]
    | some r => simp [PropertyManager.removeProperties, hl, hd, halGet, stOf, loadedInvMem]

theorem memInv_copyProperties (s : MemPM) (a b : String) (hinv : loadedInvMem s) :
    loadedInvMem (stOf (PropertyManager.copyProperties s a b)) := by
  cases hl : s._loaded with
  | false => simp [PropertyManager.copyProperties, hl, PropertyManager._lazyOpen,
                   alGet, stOf, loadedInvMem]
  | true =>
    obtain ⟨d, hd⟩ := memInv_dict s hinv hl
    cases halGet : alGet d a with
    | none => simp [PropertyManager.copyProperties, hl, hd, halGet, stOf, loadedInvMem, hinv]
    | some r => simp [PropertyManager.copyProperties, hl, hd, halGet, stOf, loadedInvMem]

theorem shInv_dict (s : ShelvePM) (hinv : loadedInvShelve s) (hl : s._loaded = true) :
    ∃ d, s._dict = some d := by
  unfold loadedInvShelve at hinv
  rw [hl] at hinv
  exact Option.isSome_iff_exists.mp (Eq.symm hinv)

theorem shInv_lazyOpen (s : ShelvePM) (hinv : loadedInvShelve s) :
    loadedInvShelve (ShelvePropertyManager._lazyOpen s) := by
  unfold ShelvePropertyManager._lazyOpen
  split
  · exact hinv
  · simp [loadedInvShelve]

theorem shInv_sync (s : ShelvePM) (hinv : loadedInvShelve s) :
    loadedInvShelve (ShelvePropertyManager._sync s) := by
  unfold ShelvePropertyManager._sync
  split
  · exact hinv
  · exact hinv

theorem shInv_close (s : ShelvePM) (hinv : loadedInvShelve s) :
    loadedInvShelve (ShelvePropertyManager._close s) := by
  unfold ShelvePropertyManager._close
  split
  · simp [loadedInvShelve]
  · exact hinv

theorem shInv_getProperties (s : ShelvePM) (u : String) (hinv : loadedInvShelve s) :
    loadedInvShelve (stOf (ShelvePropertyManager.getProperties s u)) := by
  cases hl : s._loaded with
  | false =>
    cases halGet : alGet s.diskFile u with
    | none => simp [ShelvePropertyManager.getProperties, hl,
                    ShelvePropertyManager._lazyOpen, halGet, stOf, loadedInvShelve]
    | some ps => simp [ShelvePropertyManager.getProperties, hl,
                       ShelvePropertyManager._lazyOpen, halGet, stOf, loadedInvShelve]
  | true =>
    obtain ⟨d, hd⟩ := shInv_dict s hinv hl
    cases halGet : alGet d u with
    | none => simp [ShelvePropertyManager.getProperties, hl, hd, halGet, stOf,
                    loadedInvShelve, hinv]
    | some ps => simp [ShelvePropertyManager.getProperties, hl, hd, halGet, stOf,
                       loadedInvShelve, hinv]

theorem shInv_getProperty (s : ShelvePM) (u p : String) (hinv : loadedInvShelve s) :
    loadedInvShelve (stOf (ShelvePropertyManager.getProperty s u p)) := by
  cases hl : s._loaded with
  | false =>
    cases halGet : alGet s.diskFile u with
    | none => simp [ShelvePropertyManager.getProperty, hl,
                    ShelvePropertyManager._lazyOpen, halGet, stOf, loadedInvShelve]
    | some ps => simp [ShelvePropertyManager.getProperty, hl,
                       ShelvePropertyManager._lazyOpen, halGet, stOf, loadedInvShelve]
  | true =>
    obtain ⟨d, hd⟩ := shInv_dict s hinv hl
    cases halGet : alGet d u with
    | none => simp [ShelvePropertyManager.getProperty, hl, hd, halGet, stOf,
                    loadedInvShelve, hinv]
    | some ps => simp [ShelvePropertyManager.getProperty, hl, hd, halGet, stOf,
                       loadedInvShelve, hinv]

theorem shInv_writeProperty (s : ShelvePM) (u p : String) (v : Option String) (dr : Bool)
    (hinv : loadedInvShelve s) :
    loadedInvShelve (stOf (ShelvePropertyManager.writeProperty s u p v dr)) := by
  unfold ShelvePropertyManager.writeProperty
  split
  · exact hinv
  split
  · exact hinv
  split
  · exact hinv
  cases v with
  | none => exact hinv
  | some v0 =>
    cases dr with
    | true => exact hinv
    | false =>
      cases hl : s._loaded with
      | false =>
        cases halGet : alGet s.diskFile u with
        | none => simp [hl, ShelvePropertyManager._lazyOpen, ShelvePropertyManager._sync,
                        halGet, stOf, loadedInvShelve]
        | some ps => simp [hl, ShelvePropertyManager._lazyOpen, ShelvePropertyManager._sync,
                           halGet, stOf, loadedInvShelve]
      | true =>
        obtain ⟨d, hd⟩ := shInv_dict s hinv hl
        cases halGet : alGet d u with
        | none => simp [hl, hd, halGet, ShelvePropertyManager._sync, stOf, loadedInvShelve]
        | some ps => simp [hl, hd, halGet, ShelvePropertyManager._sync, stOf, loadedInvShelve]

theorem shInv_removeProperty (s : ShelvePM) (u p : String) (dr : Bool)
    (hinv : loadedInvShelve s) :
    loadedInvShelve (stOf (ShelvePropertyManager.removeProperty s u p dr)) := by
  unfold ShelvePropertyManager.removeProperty
  cases dr with
  | true => exact hinv
  | false =>
    cases hl : s._loaded with
    | false =>
      cases halGet : alGet s.diskFile u with
      | none => simp [hl, ShelvePropertyManager._lazyOpen, halGet, stOf, loadedInvShelve]
      | some ps =>
        by_cases hmem : (alGet ps p).isSome = true
        · simp [hl, ShelvePropertyManager._lazyOpen, halGet, hmem,
                ShelvePropertyManager._sync, stOf, loadedInvShelve]
        · simp [hl, ShelvePropertyManager._lazyOpen, halGet, hmem, stOf, loadedInvShelve]
    | true =>
      obtain ⟨d, hd⟩ := shInv_dict s hinv hl
      cases halGet : alGet d u with
      | none => simp [hl, hd, halGet, stOf, loadedInvShelve, hinv]
      | some ps =>
        by_cases hmem : (alGet ps p).isSome = true
        · simp [hl, hd, halGet, hmem, ShelvePropertyManager._sync, stOf, loadedInvShelve]
        · simp [hl, hd, halGet, hmem, stOf, loadedInvShelve, hinv]

theorem shInv_removeProperties (s : ShelvePM) (u : String) (hinv : loadedInvShelve s) :
    loadedInvShelve (stOf (ShelvePropertyManager.removeProperties s u)) := by
  cases hl : s._loaded with
  | false =>
    cases halGet : alGet s.diskFile u with
    | none => simp [ShelvePropertyManager.removeProperties, hl,
                    ShelvePropertyManager._lazyOpen, halGet, stOf, loadedInvShelve]
    | some ps => simp [ShelvePropertyManager.removeProperties, hl,
                       ShelvePropertyManager._lazyOpen, halGet,
                       ShelvePropertyManager._sync, stOf, loadedInvShelve]
  | true =>
    obtain ⟨d, hd⟩ := shInv_dict s hinv hl
    cases halGet : alGet d u with
    | none => simp [ShelvePropertyManager.removeProperties, hl, hd, halGet, stOf,
                    loadedInvShelve, hinv]
    | some ps => simp [ShelvePropertyManager.removeProperties, hl, hd, halGet,
                       ShelvePropertyManager._sync, stOf, loadedInvShelve]

theorem shInv_copyProperties (s : ShelvePM) (a b : String) (hinv : loadedInvShelve s) :
    loadedInvShelve (stOf (ShelvePropertyManager.copyProperties s a b)) := by
  cases hl : s._loaded with
  | false =>
    cases halGet : alGet s.diskFile a with
    | none => simp [ShelvePropertyManager.copyProperties, hl,
                    ShelvePropertyManager._lazyOpen, halGet, stOf, loadedInvShelve]
    | some ps => simp [ShelvePropertyManager.copyProperties, hl,
                       ShelvePropertyManager._lazyOpen, halGet,
                       ShelvePropertyManager._sync, stOf, loadedInvShelve]
  | true =>
    obtain ⟨d, hd⟩ := shInv_dict s hinv hl
    cases halGet : alGet d a with
    | none => simp [ShelvePropertyManager.copyProperties, hl, hd, halGet, stOf,
                    loadedInvShelve, hinv]
    | some ps => simp [ShelvePropertyManager.copyProperties, hl, hd, halGet,
                       ShelvePropertyManager._sync, stOf, loadedInvShelve]

/-- C9: every operation of both variants preserves the invariant that the
loaded flag is true exactly when the backend mapping is attached; a
fresh or closed store has the flag false and a detached mapping, and a
loaded store has an attached mapping. -/
theorem c9_loaded_invariant :
    loadedInvMem PropertyManager.init ∧
    PropertyManager.init._loaded = false ∧ PropertyManager.init._dict = none ∧
    (∀ s, loadedInvMem (PropertyManager._lazyOpen s)) ∧
    (∀ s, loadedInvMem (PropertyManager._close s) ∧
      (PropertyManager._close s)._loaded = false ∧ (PropertyManager._close s)._dict = none) ∧
    (∀ s, loadedInvMem s → s._loaded = true → s._dict ≠ none) ∧
    (∀ s u, loadedInvMem s → loadedInvMem (stOf (PropertyManager.getProperties s u))) ∧
    (∀ s u p, loadedInvMem s → loadedInvMem (stOf (PropertyManager.getProperty s u p))) ∧
    (∀ s u p v dr, loadedInvMem s →
      loadedInvMem (stOf (PropertyManager.writeProperty s u p v dr))) ∧
    (∀ s u p dr, loadedInvMem s →
      loadedInvMem (stOf (PropertyManager.removeProperty s u p dr))) ∧
    (∀ s u, loadedInvMem s → loadedInvMem (stOf (PropertyManager.removeProperties s u))) ∧
    (∀ s a b, loadedInvMem s → loadedInvMem (stOf (PropertyManager.copyProperties s a b))) ∧
    (∀ path dk, loadedInvShelve (ShelvePropertyManager.init path dk) ∧
      (ShelvePropertyManager.init path dk)._loaded = false ∧
      (ShelvePropertyManager.init path dk)._dict = none) ∧
    (∀ s, loadedInvShelve s → loadedInvShelve (ShelvePropertyManager._lazyOpen s)) ∧
    (∀ s, loadedInvShelve s → loadedInvShelve (ShelvePropertyManager._sync s)) ∧
    (∀ s, loadedInvShelve s → loadedInvShelve (ShelvePropertyManager._close s)) ∧
    (∀ s, loadedInvShelve s → s._loaded = true → s._dict ≠ none) ∧
    (∀ s u, loadedInvShelve s → loadedInvShelve (stOf (ShelvePropertyManager.getProperties s u))) ∧
    (∀ s u p, loadedInvShelve s →
      loadedInvShelve (stOf (ShelvePropertyManager.getProperty s u p))) ∧
    (∀ s u p v dr, loadedInvShelve s →
      loadedInvShelve (stOf (ShelvePropertyManager.writeProperty s u p v dr))) ∧
    (∀ s u p dr, loadedInvShelve s →
      loadedInvShelve (stOf (ShelvePropertyManager.removeProperty s u p dr))) ∧
    (∀ s u, loadedInvShelve s →
      loadedInvShelve (stOf (ShelvePropertyManager.removeProperties s u))) ∧
    (∀ s a b, loadedInvShelve s →
      loadedInvShelve (stOf (ShelvePropertyManager.copyProperties s a b))) := by
  refine ⟨rfl, rfl, rfl, fun s => rfl, fun s => ⟨rfl, rfl, rfl⟩, ?_,
    memInv_getProperties, memInv_getProperty, memInv_writeProperty,
    memInv_removeProperty, memInv_removeProperties, memInv_copyProperties,
    fun path dk => ⟨rfl, rfl, rfl⟩,
    shInv_lazyOpen, shInv_sync, shInv_close, ?_,
    shInv_getProperties, shInv_getProperty, shInv_writeProperty,
    shInv_removeProperty, shInv_removeProperties, shInv_copyProperties⟩
  · intro s hinv hl
    obtain ⟨d, hd⟩ := memInv_dict s hinv hl
    simp [hd]
  · intro s hinv hl
    obtain ⟨d, hd⟩ := shInv_dict s hinv hl
    simp [hd]

/-- C9 witness: the invariant holds on the fresh store and is preserved by
a concrete write on it. -/
theorem c9_loaded_invariant_witness :
    loadedInvMem
      (stOf (PropertyManager.writeProperty PropertyManager.init "/r" "a" (some "1") false)) := by
  obtain ⟨-, -, -, -, -, -, -, -, hw, -⟩ := c9_loaded_invariant
  exact hw PropertyManager.init "/r" "a" (some "1") false rfl

/-- Frame property of writeProperty: a write to resource W never changes
the observable property set of another resource Q, provided the dict
object of Q is distinct from the one of W and from the next fresh id.
This captures why the in-memory manager keeps one mutable dict object
per resource and never shares them between urls. -/
theorem writeProperty_frame (u : MemPM) (du : List (String × Nat)) (W Q p : String)
    (v : Option String) (dr : Bool) (hQW : Q ≠ W)
    (hl : u._loaded = true) (hd : u._dict = some du)
    (hfresh : ∀ rW rQ, alGet du W = some rW → alGet du Q = some rQ → rQ ≠ rW)
    (hnext : ∀ rQ, alGet du Q = some rQ → rQ ≠ u.nextRef) :
    PropertyManager.propsOf (stOf (PropertyManager.writeProperty u W p v dr)) Q =
      PropertyManager.propsOf u Q := by
  simp only [PropertyManager.writeProperty]
  split
  · rfl
  split
  · rfl
  split
  · rfl
  cases v with
  | none => rfl
  | some v0 =>
    cases dr with
    | true => rfl
    | false =>
      cases halW : alGet du W with
      | some rW =>
        cases hQ : alGet du Q with
        | none =>
          simp [hl, hd, halW, hQ, stOf, PropertyManager.propsOf,
                alGet_alSet_ne du W Q rW hQW]
        | some rQ =>
          have hne : rQ ≠ rW := hfresh rW rQ halW hQ
          have hrw : heapGet (refSet u.heap rW (alSet (heapGet u.heap rW) p v0)) rQ =
              heapGet u.heap rQ := by
            unfold heapGet
            rw [refGet_refSet_ne _ _ _ _ hne]
          simp [hl, hd, halW, hQ, stOf, PropertyManager.propsOf,
                alGet_alSet_ne du W Q rW hQW, hrw]
      | none =>
        cases hQ : alGet du Q with
        | none =>
          simp [hl, hd, halW, hQ, stOf, PropertyManager.propsOf,
                alGet_alSet_ne du W Q u.nextRef hQW]
        | some rQ =>
          have hne : rQ ≠ u.nextRef := hnext rQ hQ
          have hrw : heapGet (refSet u.heap u.nextRef [(p, v0)]) rQ =
              heapGet u.heap rQ := by
            unfold heapGet
            rw [refGet_refSet_ne _ _ _ _ hne]
          simp [hl, hd, halW, hQ, stOf, PropertyManager.propsOf,
                alGet_alSet_ne du W Q u.nextRef hQW, hrw]

/-- Frame property of removeProperty: removal on resource W never changes
the observable property set of another resource Q whose dict object is
distinct from the one of W. -/
theorem removeProperty_frame (u : MemPM) (du : List (String × Nat)) (W Q p : String)
    (dr : Bool) (hQW : Q ≠ W)
    (hl : u._loaded = true) (hd : u._dict = some du)
    (hfresh : ∀ rW rQ, alGet du W = some rW → alGet du Q = some rQ → rQ ≠ rW) :
    PropertyManager.propsOf (stOf (PropertyManager.removeProperty u W p dr)) Q =
      PropertyManager.propsOf u Q := by
  simp only [PropertyManager.removeProperty]
  cases dr with
  | true => rfl
  | false =>
    cases halW : alGet du W with
    | none => simp [hl, hd, halW, stOf]
    | some rW =>
      by_cases hmem : (alGet (heapGet u.heap rW) p).isSome = true
      · cases hQ : alGet du Q with
        | none =>
          simp [hl, hd, halW, hQ, hmem, stOf, PropertyManager.propsOf,
                alGet_alSet_ne du W Q rW hQW]
        | some rQ =>
          have hne : rQ ≠ rW := hfresh rW rQ halW hQ
          have hrw : heapGet (refSet u.heap rW (alDel (heapGet u.heap rW) p)) rQ =
              heapGet u.heap rQ := by
            unfold heapGet
            rw [refGet_refSet_ne _ _ _ _ hne]
          simp [hl, hd, halW, hQ, hmem, stOf, PropertyManager.propsOf,
                alGet_alSet_ne du W Q rW hQW, hrw]
      · simp [hl, hd, halW, hmem, stOf]

/-- C3: when the source resource exists, copyProperties installs under the
destination a property set equal to the one of the source at copy time,
held in a fresh dict object, so later writeProperty or removeProperty
calls on the source never change the destination and vice versa; when
the source is absent the call is a no-op even if the destination
exists.  The store is assumed loaded with every referenced dict object
id below the next fresh id. -/
theorem c3_copyProperties_independent (s : MemPM) (d : List (String × Nat)) (S D : String)
    (hSD : S ≠ D) (hl : s._loaded = true) (hd : s._dict = some d)
    (hrefs : ∀ kv ∈ d, kv.2 < s.nextRef) :
    (alGet d S = none → PropertyManager.copyProperties s S D = PyResult.ok s ()) ∧
    ∀ r, alGet d S = some r →
      ∃ s1, PropertyManager.copyProperties s S D = PyResult.ok s1 () ∧
        PropertyManager.propsOf s1 D = PropertyManager.propsOf s S ∧
        (∀ p v dr, PropertyManager.propsOf
            (stOf (PropertyManager.writeProperty s1 S p v dr)) D =
          PropertyManager.propsOf s1 D) ∧
        (∀ p dr, PropertyManager.propsOf
            (stOf (PropertyManager.removeProperty s1 S p dr)) D =
          PropertyManager.propsOf s1 D) ∧
        (∀ p v dr, PropertyManager.propsOf
            (stOf (PropertyManager.writeProperty s1 D p v dr)) S =
          PropertyManager.propsOf s1 S) ∧
        (∀ p dr, PropertyManager.propsOf
            (stOf (PropertyManager.removeProperty s1 D p dr)) S =
          PropertyManager.propsOf s1 S) := by
  constructor
  · intro habs
    unfold PropertyManager.copyProperties
    simp [hl, hd, habs]
  · intro r hr
    have hlt : r < s.nextRef := hrefs (S, r) (alGet_mem d S r hr)
    have hSd : alGet (alSet d D s.nextRef) S = some r := by
      rw [alGet_alSet_ne d D S s.nextRef hSD, hr]
    have hDd : alGet (alSet d D s.nextRef) D = some s.nextRef :=
      alGet_alSet_self d D s.nextRef
    refine ⟨{ s with heap := refSet s.heap s.nextRef (heapGet s.heap r),
                     _dict := some (alSet d D s.nextRef),
                     nextRef := s.nextRef + 1 }, ?_, ?_, ?_, ?_, ?_, ?_⟩
    · unfold PropertyManager.copyProperties
      simp [hl, hd, hr]
    · have hval : refGet (refSet s.heap s.nextRef ((refGet s.heap r).getD [])) s.nextRef =
          some ((refGet s.heap r).getD []) := refGet_refSet_self _ _ _
      simp [PropertyManager.propsOf, hd, hDd, hr, heapGet, hval]
    · intro p v dr
      refine writeProperty_frame _ (alSet d D s.nextRef) S D p v dr
        (fun h => hSD (Eq.symm h)) hl rfl ?_ ?_
      · intro rW rQ h1 h2
        rw [hSd] at h1
        rw [hDd] at h2
        injection h1 with h1
        injection h2 with h2
        omega
      · intro rQ h2
        rw [hDd] at h2
        injection h2 with h2
        show rQ ≠ s.nextRef + 1
        omega
    · intro p dr
      refine removeProperty_frame _ (alSet d D s.nextRef) S D p dr
        (fun h => hSD (Eq.symm h)) hl rfl ?_
      intro rW rQ h1 h2
      rw [hSd] at h1
      rw [hDd] at h2
      injection h1 with h1
      injection h2 with h2
      omega
    · intro p v dr
      refine writeProperty_frame _ (alSet d D s.nextRef) D S p v dr hSD hl rfl ?_ ?_
      · intro rW rQ h1 h2
        rw [hDd] at h1
        rw [hSd] at h2
        injection h1 with h1
        injection h2 with h2
        omega
      · intro rQ h2
        rw [hSd] at h2
        injection h2 with h2
        show rQ ≠ s.nextRef + 1
        omega
    · intro p dr
      refine removeProperty_frame _ (alSet d D s.nextRef) D S p dr hSD hl rfl ?_
      intro rW rQ h1 h2
      rw [hDd] at h1
      rw [hSd] at h2
      injection h1 with h1
      injection h2 with h2
      omega

/-- C3 witness: copying the one-property resource /s to /d clones the set
into a fresh dict object; the frame facts are instantiated at a store
holding a single property. -/
theorem c3_copyProperties_independent_witness :
    (("/s" : String) ≠ "/d") ∧
    ∀ r, alGet [("/s", 0)] "/s" = some r →
      ∃ s1, PropertyManager.copyProperties
          { heap := [(0, [("a", "1")])], _dict := some [("/s", 0)], nextRef := 1, _loaded := true }
          "/s" "/d" = PyResult.ok s1 () ∧
        PropertyManager.propsOf s1 "/d" =
          PropertyManager.propsOf
            { heap := [(0, [("a", "1")])], _dict := some [("/s", 0)], nextRef := 1, _loaded := true }
            "/s" ∧
        (∀ p v dr, PropertyManager.propsOf
            (stOf (PropertyManager.writeProperty s1 "/s" p v dr)) "/d" =
          PropertyManager.propsOf s1 "/d") ∧
        (∀ p dr, PropertyManager.propsOf
            (stOf (PropertyManager.removeProperty s1 "/s" p dr)) "/d" =
          PropertyManager.propsOf s1 "/d") ∧
        (∀ p v dr, PropertyManager.propsOf
            (stOf (PropertyManager.writeProperty s1 "/d" p v dr)) "/s" =
          PropertyManager.propsOf s1 "/s") ∧
        (∀ p dr, PropertyManager.propsOf
            (stOf (PropertyManager.removeProperty s1 "/d" p dr)) "/s" =
          PropertyManager.propsOf s1 "/s") :=
  ⟨by decide,
   (c3_copyProperties_independent
      { heap := [(0, [("a", "1")])], _dict := some [("/s", 0)], nextRef := 1, _loaded := true }
      [("/s", 0)] "/s" "/d" (by decide) rfl rfl (by decide)).2⟩

/-- C7: the consistency self-check returns the pre-state unchanged; when
the body of its try block raises, the exception is swallowed and the
outcome is the boolean false; when the body returns, the outcome is that
boolean; on a store that is not loaded the outcome is true.  The check
never raises: its result type is a plain pair of state and boolean. -/
theorem c7_check_no_propagation (s : MemPM) :
    (PropertyManager._check s).1 = s ∧
    (∀ e s1, PropertyManager._checkBody s = PyResult.exc s1 e →
      PropertyManager._check s = (s, false)) ∧
    (∀ b s1, PropertyManager._checkBody s = PyResult.ok s1 b →
      PropertyManager._check s = (s, b)) ∧
    (s._loaded = false → (PropertyManager._check s).2 = true) := by
  unfold PropertyManager._check PropertyManager._checkBody
  by_cases hl : s._loaded = false
  · simp [hl]
  · cases hdict : s._dict with
    | none => simp [hl, hdict]
    | some d => simp [hl, hdict]

/-- C7 witness: on a corrupt state, loaded with a detached mapping, the
try body raises and the check reports false with the state unchanged. -/
theorem c7_check_no_propagation_witness :
    (PropertyManager._check { heap := [], _dict := none, nextRef := 0, _loaded := true }).1 =
      { heap := [], _dict := none, nextRef := 0, _loaded := true } ∧
    PropertyManager._check { heap := [], _dict := none, nextRef := 0, _loaded := true } =
      ({ heap := [], _dict := none, nextRef := 0, _loaded := true }, false) :=
  ⟨(c7_check_no_propagation _).1,
   (c7_check_no_propagation _).2.1 PyErr.typeError _ rfl⟩
